import Mathlib

/-!
Verification of the task-generation / baseline-indexing / completion-tracking
subsystem of the rl-daaf repository, shallowly embedded in Lean 4.

Sources embedded:
* `src/daaf/periodic_reward/constants.py` — the mapper-method constants.
* `src/daaf/periodic_reward/progargs.py` — `ControlArgs` and `CPRArgs`
  (frozen dataclasses with `__post_init__` validation).
* `src/daaf/policyeval/evaljob.py` — `main` (the ray-driven completion loop),
  `create_tasks` (task generation, shuffling, submission) and
  `add_experiment_context` (baseline attachment).

External collaborators (the ray pool, the Python RNG) and repository modules
that are not part of the provided sources (`expconfig`, `utils`, `task`) are
modelled from their documented contracts; each such definition carries a doc
comment saying so.
-/

namespace DAAF

/-! ### constants.py -/

def IDENTITY_MAPPER : String := "identity-mapper"

def SINGLE_STEP_MAPPER : String := "single-step-mapper"

def AVERAGE_REWARD_MAPPER : String := "average-reward-mapper"

def REWARD_ESTIMATION_LS_MAPPER : String := "reward-estimation-ls-mapper"

def REWARD_IMPUTATION_MAPPER : String := "reward-imputation-mapper"

def CUMULATIVE_REWARD_MAPPER : String := "cumulative-reward-mapper"

/-- `CU_MAPPER_METHODS` from `constants.py`: the tuple of known
cumulative-reward step-mapper method names, in source order. -/
def CU_MAPPER_METHODS : List String :=
  [IDENTITY_MAPPER, SINGLE_STEP_MAPPER, AVERAGE_REWARD_MAPPER,
   REWARD_IMPUTATION_MAPPER, REWARD_ESTIMATION_LS_MAPPER,
   CUMULATIVE_REWARD_MAPPER]

def DEFAULT_BUFFER_SIZE_MULTIPLIER : Nat := 2 ^ 8

/-! ### progargs.py

Python floats carry no arithmetic here, so the numeric fields are embedded as
rationals. `Optional[int]` becomes `Option Int`; a raised `ValueError` becomes
`Except.error`. -/

structure ControlArgs where
  epsilon : Rat
  alpha : Rat
  gamma : Rat
deriving DecidableEq

structure CPRArgs where
  reward_period : Int
  cu_step_mapper : String
  buffer_size : Option Int
  buffer_size_multiplier : Option Int
deriving DecidableEq

/-- `CPRArgs.__post_init__`: validates a freshly constructed record.
Python's `if self.cu_step_mapper` is the string-truthiness test, i.e. the
branch is taken only when the string is non-empty; `is not None` is
`Option.isSome`. -/
def CPRArgs.post_init (a : CPRArgs) : Except String CPRArgs :=
  if a.cu_step_mapper ≠ "" ∧ a.cu_step_mapper ∉ CU_MAPPER_METHODS then
    Except.error "cu_step_mapper value is unknown"
  else if a.buffer_size.isSome ∧ a.buffer_size_multiplier.isSome then
    Except.error "either buffer_size or buffer_size_multiplier can be defined, never both"
  else
    Except.ok a

/-- Constructing a `CPRArgs` dataclass instance: field assignment followed by
`__post_init__`, which may raise. -/
def mkCPRArgs (reward_period : Int) (cu_step_mapper : String)
    (buffer_size : Option Int) (buffer_size_multiplier : Option Int) :
    Except String CPRArgs :=
  CPRArgs.post_init ⟨reward_period, cu_step_mapper, buffer_size, buffer_size_multiplier⟩

/-- Whether an `Except` value is a successful construction. -/
def exceptOk : Except ε α → Bool
  | Except.ok _ => true
  | Except.error _ => false

/-! Frozen-dataclass semantics. Both `ControlArgs` and `CPRArgs` are declared
with `@dataclasses.dataclass(frozen=True)`, so CPython generates a
`__setattr__` that unconditionally raises `FrozenInstanceError`. The frozen
flag of each declaration is recorded and attribute assignment is embedded as
a fallible operation gated on that flag. -/

def ControlArgs.frozen_flag : Bool := true

def CPRArgs.frozen_flag : Bool := true

inductive ControlArgsAssign where
  | epsilon (v : Rat)
  | alpha (v : Rat)
  | gamma (v : Rat)

inductive CPRArgsAssign where
  | reward_period (v : Int)
  | cu_step_mapper (v : String)
  | buffer_size (v : Option Int)
  | buffer_size_multiplier (v : Option Int)

def ControlArgs.setField (a : ControlArgs) : ControlArgsAssign → ControlArgs
  | ControlArgsAssign.epsilon v => { a with epsilon := v }
  | ControlArgsAssign.alpha v => { a with alpha := v }
  | ControlArgsAssign.gamma v => { a with gamma := v }

def CPRArgs.setField (a : CPRArgs) : CPRArgsAssign → CPRArgs
  | CPRArgsAssign.reward_period v => { a with reward_period := v }
  | CPRArgsAssign.cu_step_mapper v => { a with cu_step_mapper := v }
  | CPRArgsAssign.buffer_size v => { a with buffer_size := v }
  | CPRArgsAssign.buffer_size_multiplier v => { a with buffer_size_multiplier := v }

/-- Python attribute assignment `obj.field = v` on a `ControlArgs` instance:
raises `FrozenInstanceError` when the dataclass is frozen. -/
def ControlArgs.setattr (a : ControlArgs) (f : ControlArgsAssign) :
    Except String ControlArgs :=
  if ControlArgs.frozen_flag then Except.error "FrozenInstanceError"
  else Except.ok (a.setField f)

/-- Python attribute assignment `obj.field = v` on a `CPRArgs` instance:
raises `FrozenInstanceError` when the dataclass is frozen. -/
def CPRArgs.setattr (a : CPRArgs) (f : CPRArgsAssign) :
    Except String CPRArgs :=
  if CPRArgs.frozen_flag then Except.error "FrozenInstanceError"
  else Except.ok (a.setField f)

/-! ### evaljob.py — the completion loop in `main`

The driver keeps a list of outstanding ray futures and repeatedly calls
`ray.wait`, which partitions the outstanding list into finished and
still-unfinished handles. For each finished handle it logs one completion
notification carrying `len(unfinished_tasks)` — the remaining count *after*
the wait call. The loop exits when the unfinished list is empty.

`ray.wait` is an external collaborator; it is embedded as a function
parameter `wait` together with hypotheses stating its contract. The loop is
embedded with explicit fuel; `none` means the fuel ran out before the
outstanding set drained, so termination claims say the result `isSome`. -/

/-- The `while True` loop of `main` in `evaljob.py`: one iteration calls
`wait` on the outstanding handles, emits `(finished_handle, remaining_count)`
for each finished handle (the count is the post-wait unfinished length, the
same value for every handle of one batch), and stops when nothing remains. -/
def runToCompletion (wait : List H → List H × List H) :
    Nat → List H → Option (List (H × Nat))
  | 0, _ => none
  | fuel + 1, unfinished0 =>
    let p := wait unfinished0
    let notifs := p.1.map (fun f => (f, p.2.length))
    if p.2.isEmpty then some notifs
    else
      match runToCompletion wait fuel p.2 with
      | none => none
      | some rest => some (notifs ++ rest)

/-- `ray.wait` contract, part 1: the two returned lists partition the input
(no handle invented, dropped, or duplicated). -/
def WaitPartitions (wait : List H → List H × List H) : Prop :=
  ∀ m, ((wait m).1 ++ (wait m).2).Perm m

/-- `ray.wait` contract, part 2 (the liveness assumption the spec states as
an external-collaborator precondition): a wait on a non-empty outstanding
set returns at least one finished handle. -/
def WaitProgresses (wait : List H → List H × List H) : Prop :=
  ∀ m, m ≠ [] → (wait m).1 ≠ []

/-- `ray.wait`'s default `num_returns=1`: each call on a non-empty
outstanding set reports exactly one finished handle. -/
def WaitReturnsOne (wait : List H → List H × List H) : Prop :=
  ∀ m, m ≠ [] → (wait m).1.length = 1

/-- A concrete pool used to instantiate the loop theorems: the head of the
outstanding list finishes on every wait call. -/
def waitHead (m : List Nat) : List Nat × List Nat := (m.take 1, m.drop 1)

/-- A concrete pool where every outstanding handle finishes at once on the
first wait call. It satisfies `WaitPartitions` and `WaitProgresses`. -/
def waitAll (m : List Nat) : List Nat × List Nat := (m, [])

/-! ### evaljob.py — `create_tasks`: shuffling and submission -/

/-- Modelled from the spec: Python's `random.sample(population, k)` (the
standard-library RNG used on line 113 of `evaljob.py`) selects `k` elements
of the population without replacement, the RNG being abstracted as a stream
`rand` of index choices; step `k` removes the chosen element from the pool. -/
def randomSample (rand : Nat → Nat) : Nat → List α → List α
  | 0, _ => []
  | k + 1, pool =>
    if h : pool.length = 0 then []
    else
      let j : Fin pool.length := ⟨rand k % pool.length, Nat.mod_lt _ (Nat.pos_of_ne_zero h)⟩
      pool.get j :: randomSample rand k (pool.eraseIdx j.1)

/-- The LoadBalancer shuffle, line 113 of `evaljob.py`:
`random.sample(experiment_tasks, len(experiment_tasks))`. -/
def balance (rand : Nat → Nat) (tasks : List α) : List α :=
  randomSample rand tasks.length tasks

/-- The submission loop of `create_tasks` (lines 120-124): for each task, in
order, call the pool's submit primitive (`evaluate.remote`) once and collect
the `(task, handle)` pair. The pool is stateful, so `submit` threads an
abstract state `σ`. -/
def submitAll (submit : τ → σ → H × σ) : List τ → σ → List (τ × H) × σ
  | [], s => ([], s)
  | t :: ts, s =>
    let p := submit t s
    let rest := submitAll submit ts p.2
    ((t, p.1) :: rest.1, rest.2)

/-- Instrumentation wrapper: behaves exactly like `submit` but also appends
each submitted task to a call log, so "submit is called exactly once per
task, in order" is expressible as a statement about the final log. -/
def loggingSubmit (submit : τ → σ → H × σ) : τ → σ × List τ → H × (σ × List τ) :=
  fun t s => ((submit t s.1).1, ((submit t s.1).2, s.2 ++ [t]))

/-! ### evaljob.py — task generation and baseline context

The modules `expconfig`, `utils` and `task` are imported by `evaljob.py` but
their sources are not part of the embedded tree, so their data types and
functions are modelled from the spec's data model and component contracts;
each is marked as such. `evaljob.create_tasks` and
`evaljob.add_experiment_context` themselves are embedded from the source. -/

/-- Modelled from the spec: `EnvConfig` identifies one environment variant by
name, level tag and construction arguments; immutable. -/
structure EnvConfig where
  name : String
  args : List (String × Int)
deriving DecidableEq

/-- Modelled from the spec: the Markov Decision Process handle produced by
the (out-of-scope) environment builder and consumed by the DP solver. -/
structure MDP where
  num_states : Nat
  num_actions : Nat
  data : List Int
deriving DecidableEq

/-- Modelled from the spec: the `(name, level, mdp)` descriptor returned by
`task.create_env_spec` (the EnvSpecResolver collaborator). -/
structure EnvSpec where
  name : String
  level : String
  mdp : MDP
deriving DecidableEq

/-- Modelled from the spec: `ExperimentConfig` is one learning/evaluation
configuration — control parameters plus periodic-reward-aggregation
parameters. -/
structure ExperimentConfig where
  control : ControlArgs
  cpr : CPRArgs
deriving DecidableEq

/-- Modelled from the spec: an `Experiment` pairs one `EnvConfig` with one
`ExperimentConfig`; the learning arguments (notably the discount factor used
for baseline lookup) are derived from the configuration. -/
structure Experiment where
  env_config : EnvConfig
  exp_config : ExperimentConfig
deriving DecidableEq

/-- The Experiment's derived `learning_args.discount_factor`. -/
def Experiment.discount_factor (e : Experiment) : Rat :=
  e.exp_config.control.gamma

/-- Modelled from the spec: `expconfig.create_experiments` forms the full
cross-product of environment configs and experiment configs, one Experiment
per pair, in enumeration order, with no de-duplication. -/
def create_experiments (envs_configs : List EnvConfig)
    (experiment_configs : List ExperimentConfig) : List Experiment :=
  envs_configs.flatMap (fun ev => experiment_configs.map (fun c => ⟨ev, c⟩))

/-- A state-value vector held as a numpy array: a specialized numeric-array
handle, distinct from a plain Python list until `.tolist()` converts it. -/
structure NDArray where
  values : List Rat
deriving DecidableEq

/-- numpy's `ndarray.tolist()`: the plain-list view of the array. -/
def NDArray.tolist (a : NDArray) : List Rat := a.values

/-- A value stored in a task's context mapping: either a numpy array handle
or a plain serializable Python list. -/
inductive ContextValue where
  | ndarray (a : NDArray)
  | pylist (l : List Rat)
deriving DecidableEq

/-- A baseline key: `(env_name, level, discount_factor)`. -/
def BKey : Type := String × String × Rat

instance : DecidableEq BKey := by
  unfold BKey
  infer_instance

/-- One entry of the spec list built by `add_experiment_context`:
`(env_spec.name, env_spec.level, discount_factor, env_spec.mdp)`. -/
def DPSpec : Type := String × String × Rat × MDP

/-- The baseline key of one spec entry. -/
def DPSpec.key (s : DPSpec) : BKey := (s.1, s.2.1, s.2.2.1)

/-- The mdp of one spec entry. -/
def DPSpec.mdp (s : DPSpec) : MDP := s.2.2.2

/-- Modelled from the spec: `utils.DynaProgStateValueIndex` owns a mapping
from baseline key to a converged state-value vector. -/
structure DynaProgStateValueIndex where
  entries : List (BKey × NDArray)

/-- Modelled from the spec: the vector stored for one distinct key — loaded
from persistent storage when an entry for that exact key exists there,
otherwise computed by the DP solver on the key's mdp and discount factor. -/
def baselineValue (solve : MDP → Rat → NDArray) (persisted : BKey → Option NDArray)
    (s : DPSpec) : NDArray :=
  match persisted s.key with
  | some arr => arr
  | none => solve s.mdp s.2.2.1

/-- Modelled from the spec: `build_index` deduplicates the spec list by
baseline key (first occurrence wins) and resolves each distinct key once. -/
def buildEntries (solve : MDP → Rat → NDArray) (persisted : BKey → Option NDArray) :
    List DPSpec → List (BKey × NDArray) → List (BKey × NDArray)
  | [], acc => acc
  | s :: rest, acc =>
    if acc.any (fun e => e.1 = s.key) then buildEntries solve persisted rest acc
    else buildEntries solve persisted rest (acc ++ [(s.key, baselineValue solve persisted s)])

/-- Modelled from the spec: `DynaProgStateValueIndex.build_index`. -/
def build_index (solve : MDP → Rat → NDArray) (persisted : BKey → Option NDArray)
    (specs : List DPSpec) : DynaProgStateValueIndex :=
  ⟨buildEntries solve persisted specs []⟩

/-- Modelled from the spec: `DynaProgStateValueIndex.get` returns the vector
for a key, and fails (LookupError, here `none`) for a key the index was not
built with. -/
def DynaProgStateValueIndex.get (idx : DynaProgStateValueIndex)
    (name level : String) (gamma : Rat) : Option NDArray :=
  (idx.entries.find? (fun e => e.1 = ((name, level, gamma) : BKey))).map (fun e => e.2)

/-- One iteration of the first loop of `add_experiment_context` (lines
133-145 of `evaljob.py`): resolve the experiment's env spec and record
`(env_spec.name, env_spec.level, discount_factor, env_spec.mdp)`. The
EnvSpecResolver collaborator `resolver` stands for `task.create_env_spec`. -/
def dpSpecOf (resolver : EnvConfig → EnvSpec) (ex : Experiment) : DPSpec :=
  ((resolver ex.env_config).name, (resolver ex.env_config).level,
    ex.discount_factor, (resolver ex.env_config).mdp)

/-- The spec list built by the first loop of `add_experiment_context`. -/
def dynaProgSpecs (resolver : EnvConfig → EnvSpec) (experiments : List Experiment) :
    List DPSpec :=
  experiments.map (dpSpecOf resolver)

/-- The baseline key an experiment resolves to:
`(env_name, level, discount_factor)`. -/
def experimentKey (resolver : EnvConfig → EnvSpec) (ex : Experiment) : BKey :=
  (dpSpecOf resolver ex).key

/-- The plain-list view of the vector a built index holds for a key (with a
default for absent keys, which the theorems rule out). -/
def indexVector (idx : DynaProgStateValueIndex) (k : BKey) : List Rat :=
  ((idx.get k.1 k.2.1 k.2.2).getD ⟨[]⟩).tolist

/-- The context mapping attached to an experiment whose spec resolves to key
`k`, as built by the second loop of `add_experiment_context`. -/
def contextEntry (idx : DynaProgStateValueIndex) (k : BKey) :
    List (String × ContextValue) :=
  [("dyna_prog_state_values", ContextValue.pylist (indexVector idx k))]

/-- A loop that appends one produced element per input and propagates the
failure of any step — the shape of the second loop of
`add_experiment_context`, where a `get` miss would raise. -/
def mapOrNone (f : α → Option β) : List α → Option (List β)
  | [] => some []
  | x :: xs =>
    match f x, mapOrNone f xs with
    | some y, some ys => some (y :: ys)
    | _, _ => none

/-- `add_experiment_context` (lines 127-163 of `evaljob.py`): build the spec
list, build the index over it, then zip experiments with their specs and
attach `{"dyna_prog_state_values": index.get(name, level, gamma).tolist()}`.
A failing `get` (LookupError) propagates, making the result `none`. -/
def add_experiment_context (resolver : EnvConfig → EnvSpec)
    (solve : MDP → Rat → NDArray) (persisted : BKey → Option NDArray)
    (experiments : List Experiment) :
    Option (List (Experiment × List (String × ContextValue))) :=
  let specs := dynaProgSpecs resolver experiments
  let idx := build_index solve persisted specs
  mapOrNone (fun p =>
      (idx.get p.2.1 p.2.2.1 p.2.2.2.1).map (fun arr =>
        (p.1, [("dyna_prog_state_values", ContextValue.pylist arr.tolist)])))
    (experiments.zip specs)

/-- `RunConfig` shared by all tasks of a batch. -/
structure RunConfig where
  num_episodes : Nat
  log_episode_frequency : Nat
  output_dir : String
deriving DecidableEq

/-- The unit of dispatch. -/
structure ExperimentTask where
  exp_id : String
  run_id : Nat
  experiment : Experiment
  run_config : RunConfig
  context : List (String × ContextValue)
deriving DecidableEq

/-- Modelled from the spec:
`expconfig.generate_tasks_from_experiments_context_and_run_config` emits, for
each Experiment (with its context) in order, exactly `num_runs` tasks with
run ids `0, …, num_runs - 1`, the experiment id formed from the task id
prefix and a per-experiment counter. -/
def generate_tasks (run_config : RunConfig)
    (experiments_and_context : List (Experiment × List (String × ContextValue)))
    (num_runs : Nat) (pfx : String) : List ExperimentTask :=
  experiments_and_context.enum.flatMap (fun p =>
    (List.range num_runs).map (fun run_id =>
      { exp_id := pfx ++ "-" ++ toString p.1
        run_id := run_id
        experiment := p.2.1
        run_config := run_config
        context := p.2.2 }))

/-- `create_tasks` of `evaljob.py`, from parsed configs onward: build the
cross-product of experiments, attach baseline context, generate the task
records. (Shuffling and submission, lines 113 and 120-124, are `balance` and
`submitAll` above.) -/
def create_tasks_model (resolver : EnvConfig → EnvSpec)
    (solve : MDP → Rat → NDArray) (persisted : BKey → Option NDArray)
    (envs_configs : List EnvConfig) (experiment_configs : List ExperimentConfig)
    (run_config : RunConfig) (num_runs : Nat) (pfx : String) :
    Option (List ExperimentTask) :=
  (add_experiment_context resolver solve persisted
      (create_experiments envs_configs experiment_configs)).map
    (fun ec => generate_tasks run_config ec num_runs pfx)

/-! Concrete fixtures used to instantiate the context theorems. -/

/-- A concrete EnvSpecResolver: level "1", a fixed 2-state 2-action mdp. -/
def resolver0 : EnvConfig → EnvSpec := fun c => ⟨c.name, "1", ⟨2, 2, []⟩⟩

/-- A concrete DP solver: one state value equal to the discount factor. -/
def solve0 : MDP → Rat → NDArray := fun _ g => ⟨[g]⟩

/-- Empty persistent storage. -/
def persisted0 : BKey → Option NDArray := fun _ => none

/-- A concrete experiment. -/
def exA : Experiment := ⟨⟨"envA", []⟩, ⟨⟨1, 1, 1⟩, ⟨1, "", none, none⟩⟩⟩

/-- A concrete batch with a repeated experiment (hence a repeated key). -/
def experiments0 : List Experiment := [exA, exA]

/-- The task-context pair `add_experiment_context` produces for `exA`. -/
def pA : Experiment × List (String × ContextValue) :=
  (exA, [("dyna_prog_state_values", ContextValue.pylist [1])])

/-! ## Theorems -/

/-- A constant list is a descending chain. -/
theorem chain'_map_const :
    ∀ (g : List γ) (c : Nat),
      List.Chain' (fun a b : Nat => b ≤ a) (g.map fun _ => c)
  | [], _ => List.chain'_nil
  | [_], _ => by simp
  | _ :: y :: t, c => by
    simp only [List.map]
    exact List.Chain'.cons (le_refl c) (chain'_map_const (y :: t) c)

/-- The last element of a non-empty constant list. -/
theorem getLast?_map_const :
    ∀ (g : List γ) (c : Nat), g ≠ [] → (g.map fun _ => c).getLast? = some c
  | [], _, h => absurd rfl h
  | [_], _, _ => rfl
  | _ :: y :: t, c, _ => by
    simp only [List.map, List.getLast?_cons_cons]
    exact getLast?_map_const (y :: t) c (by simp)

/-- Main completion-loop invariant: with a partitioning, progressing pool
and enough fuel, the loop returns a notification list that enumerates the
outstanding handles exactly once, whose reported counts are all below the
starting count, non-increasing along the list, and end at zero. -/
theorem runToCompletion_spec (wait : List H → List H × List H)
    (Hpart : WaitPartitions wait) (Hprog : WaitProgresses wait) :
    ∀ (fuel : Nat) (l : List H), l.length < fuel →
      ∃ notifs, runToCompletion wait fuel l = some notifs ∧
        (notifs.map Prod.fst).Perm l ∧
        (∀ c ∈ notifs.map Prod.snd, c < l.length) ∧
        List.Chain' (fun a b => b ≤ a) (notifs.map Prod.snd) ∧
        (l ≠ [] → (notifs.map Prod.snd).getLast? = some 0) := by
  intro fuel
  induction fuel with
  | zero =>
    intro l hl
    omega
  | succ f ih =>
    intro l hl
    have hpart := Hpart l
    have hlen : (wait l).1.length + (wait l).2.length = l.length := by
      have h := hpart.length_eq
      simpa [List.length_append] using h
    by_cases h2 : (wait l).2 = []
    · refine ⟨(wait l).1.map (fun x => (x, (wait l).2.length)), ?_, ?_, ?_, ?_, ?_⟩
      · simp [runToCompletion, h2]
      · rw [List.map_map,
          show (Prod.fst ∘ fun x : H => (x, (wait l).2.length)) = id from rfl,
          List.map_id]
        have h0 : (wait l).1 ++ (wait l).2 = (wait l).1 := by
          rw [h2, List.append_nil]
        rw [h0] at hpart
        exact hpart
      · intro c hc
        simp only [List.map_map] at hc
        rcases List.exists_of_mem_map hc with ⟨x, _, hx⟩
        have hc0 : c = 0 := by
          rw [← hx]
          simp [h2]
        have hfne : (wait l).1 ≠ [] := by
          intro hnil
          rcases List.exists_of_mem_map hc with ⟨x2, hx2, _⟩
          rw [hnil] at hx2
          exact absurd hx2 (List.not_mem_nil x2)
        have hgt : 0 < l.length := by
          rw [← hlen, h2]
          simp
          exact List.length_pos.2 hfne
        omega
      · simp only [List.map_map]
        exact chain'_map_const (wait l).1 _
      · intro hne
        have hfne : (wait l).1 ≠ [] := Hprog l hne
        simp only [List.map_map]
        have h0 : ((fun x => ((x : H), (wait l).2.length)) ∘ id) = fun x : H => (x, (wait l).2.length) := rfl
        rw [show (Prod.snd ∘ fun x : H => (x, (wait l).2.length)) = fun _ : H => (wait l).2.length from rfl]
        rw [getLast?_map_const (wait l).1 _ hfne, h2]
        simp
    · have hlne : l ≠ [] := by
        intro hnil
        have h0 : l.length = 0 := by
          rw [hnil]
          rfl
        have h1 : (wait l).2.length = 0 := by omega
        exact h2 (List.length_eq_zero.1 h1)
      have hfne : (wait l).1 ≠ [] := Hprog l hlne
      have hfpos : 0 < (wait l).1.length := List.length_pos.2 hfne
      have hshrink : (wait l).2.length < l.length := by omega
      have hfuel : (wait l).2.length < f := by omega
      rcases ih (wait l).2 hfuel with ⟨rest, hrun, hperm, hbound, hchain, hlast⟩
      refine ⟨(wait l).1.map (fun x => (x, (wait l).2.length)) ++ rest, ?_, ?_, ?_, ?_, ?_⟩
      · simp only [runToCompletion]
        rw [if_neg (by simpa [List.isEmpty_iff] using h2)]
        rw [hrun]
      · rw [List.map_append, List.map_map,
          show (Prod.fst ∘ fun x : H => (x, (wait l).2.length)) = id from rfl,
          List.map_id]
        exact ((hperm.append_left (wait l).1).trans hpart)
      · intro c hc
        rw [List.map_append, List.mem_append] at hc
        rcases hc with hc | hc
        · simp only [List.map_map] at hc
          rcases List.exists_of_mem_map hc with ⟨x, _, hx⟩
          have : c = (wait l).2.length := by
            rw [← hx]
            rfl
          omega
        · exact lt_trans (hbound c hc) hshrink
      · rw [List.map_append]
        rw [List.chain'_append]
        refine ⟨?_, hchain, ?_⟩
        · simp only [List.map_map]
          exact chain'_map_const (wait l).1 _
        · intro x hx y hy
          simp only [List.map_map] at hx
          rw [show (Prod.snd ∘ fun x : H => (x, (wait l).2.length))
              = (fun _ : H => (wait l).2.length) from rfl] at hx
          rw [getLast?_map_const (wait l).1 _ hfne] at hx
          simp only [Option.mem_def, Option.some.injEq] at hx
          have hmem : y ∈ rest.map Prod.snd := List.mem_of_mem_head? hy
          have := hbound y hmem
          omega
      · intro _
        rw [List.map_append]
        have hrne : rest ≠ [] := by
          intro hnil
          rw [hnil] at hperm
          exact h2 (hperm.symm.eq_nil)
        have hrmne : rest.map Prod.snd ≠ [] := by
          simpa [List.map_eq_nil_iff] using hrne
        rw [List.getLast?_append_of_ne_nil _ hrmne]
        exact hlast h2

/-- C1: For every `CPRArgs` input, construction succeeds iff the
`cu_step_mapper` method, when non-empty, is a member of `CU_MAPPER_METHODS`
and at most one of `buffer_size`, `buffer_size_multiplier` is set; otherwise
construction raises a `ValueError`. In particular,
`cu_step_mapper="bogus-mapper"` raises and
`cu_step_mapper="average-reward-mapper"` succeeds. -/
theorem C1_cpr_construction_iff :
    (∀ (rp : Int) (m : String) (bs bsm : Option Int),
      exceptOk (mkCPRArgs rp m bs bsm) = true ↔
        ((m ≠ "" → m ∈ CU_MAPPER_METHODS) ∧ ¬(bs.isSome ∧ bsm.isSome))) ∧
    exceptOk (mkCPRArgs 10 "bogus-mapper" none none) = false ∧
    exceptOk (mkCPRArgs 10 "average-reward-mapper" none none) = true := by
  refine ⟨?_, by decide, by decide⟩
  intro rp m bs bsm
  unfold mkCPRArgs CPRArgs.post_init
  by_cases h1 : m ≠ "" ∧ m ∉ CU_MAPPER_METHODS
  · rw [if_pos h1]
    simp only [exceptOk]
    constructor
    · intro h
      exact absurd h (by simp)
    · intro h
      exact absurd (h.1 h1.1) h1.2
  · rw [if_neg h1]
    by_cases h2 : bs.isSome ∧ bsm.isSome
    · rw [if_pos h2]
      simp only [exceptOk]
      constructor
      · intro h
        exact absurd h (by simp)
      · intro h
        exact absurd h2 h.2
    · rw [if_neg h2]
      simp only [exceptOk, true_iff]
      constructor
      · intro hm
        by_contra hmem
        exact h1 ⟨hm, hmem⟩
      · exact h2

/-- C8 counterexample: the empty string is outside `CU_MAPPER_METHODS`, yet
constructing `CPRArgs` with it succeeds — so it is not the case that every
aggregation-method name outside the set raises a construction-time error. -/
theorem C8_counterexample :
    exceptOk (mkCPRArgs 1 "" none none) = true ∧ "" ∉ CU_MAPPER_METHODS := by
  constructor
  · decide
  · decide

/-- C8 (amended): the known set contains exactly the six named strategies,
and constructing with any *non-empty* aggregation method name outside the
set raises a construction-time error. -/
theorem C8_known_set_and_rejection :
    CU_MAPPER_METHODS =
      ["identity-mapper", "single-step-mapper", "average-reward-mapper",
       "reward-imputation-mapper", "reward-estimation-ls-mapper",
       "cumulative-reward-mapper"] ∧
    CU_MAPPER_METHODS.length = 6 ∧
    CU_MAPPER_METHODS.Nodup ∧
    ∀ (rp : Int) (m : String) (bs bsm : Option Int),
      m ≠ "" → m ∉ CU_MAPPER_METHODS →
        exceptOk (mkCPRArgs rp m bs bsm) = false := by
  refine ⟨by decide, by decide, by decide, ?_⟩
  intro rp m bs bsm hne hmem
  unfold mkCPRArgs CPRArgs.post_init
  rw [if_pos ⟨hne, hmem⟩]
  rfl

/-- C8 witness: the amended rejection theorem applied at the concrete
non-member name "nope-mapper". -/
theorem C8_witness : exceptOk (mkCPRArgs 7 "nope-mapper" none none) = false :=
  C8_known_set_and_rejection.2.2.2 7 "nope-mapper" none none (by decide) (by decide)

/-- C9: constructing `CPRArgs` with the empty-string mapper succeeds even
though the empty string is not a member of the known method set — the
membership check is skipped for a falsy `cu_step_mapper`. -/
theorem C9_empty_mapper_accepted :
    exceptOk (mkCPRArgs 5 "" none none) = true ∧
    ("" ∈ CU_MAPPER_METHODS) = False := by
  constructor
  · decide
  · simp only [eq_iff_iff, iff_false]
    decide

/-- When every wait call reports exactly one finished handle (ray.wait's
default `num_returns=1`), the reported remaining counts are exactly
`n-1, n-2, …, 0`: strictly decreasing down to zero. -/
theorem runToCompletion_one_counts (wait : List H → List H × List H)
    (Hpart : WaitPartitions wait) (Hone : WaitReturnsOne wait) :
    ∀ (fuel : Nat) (l : List H), l.length < fuel →
      ((runToCompletion wait fuel l).getD []).map Prod.snd
        = (List.range l.length).reverse := by
  intro fuel
  induction fuel with
  | zero =>
    intro l hl
    omega
  | succ f ih =>
    intro l hl
    have hlen : (wait l).1.length + (wait l).2.length = l.length := by
      have h := (Hpart l).length_eq
      simpa [List.length_append] using h
    by_cases hnil : l = []
    · subst hnil
      have hz : (wait ([] : List H)).1.length + (wait ([] : List H)).2.length = 0 := by
        simpa using hlen
      have h2 : (wait ([] : List H)).2 = [] := by
        apply List.length_eq_zero.1
        omega
      have h1 : (wait ([] : List H)).1 = [] := by
        apply List.length_eq_zero.1
        omega
      simp [runToCompletion, h2, h1]
    · have hone := Hone l hnil
      have hlpos : 0 < l.length := List.length_pos.2 hnil
      rcases List.length_eq_one.1 hone with ⟨a, ha⟩
      by_cases h2 : (wait l).2 = []
      · have hl1 : l.length = 1 := by
          rw [h2] at hlen
          simp [hone] at hlen
          omega
        rw [hl1]
        simp [runToCompletion, h2, ha]
        decide
      · have h2pos : 0 < (wait l).2.length := List.length_pos.2 h2
        have hfuel : (wait l).2.length < f := by omega
        have hrest := ih (wait l).2 hfuel
        cases hres : runToCompletion wait f (wait l).2 with
        | none =>
          rw [hres] at hrest
          have h0 := congrArg List.length hrest
          simp at h0
          omega
        | some rest =>
          rw [hres] at hrest
          simp only [Option.getD_some] at hrest
          have hstep : runToCompletion wait (f + 1) l
              = some ((wait l).1.map (fun x => (x, (wait l).2.length)) ++ rest) := by
            simp only [runToCompletion]
            rw [if_neg (by simpa [List.isEmpty_iff] using h2), hres]
          rw [hstep]
          simp only [Option.getD_some, List.map_append, hrest]
          rw [ha]
          have hlsucc : l.length = (wait l).2.length + 1 := by
            rw [ha] at hlen
            simp at hlen
            omega
          rw [hlsucc, List.range_succ, List.reverse_append]
          rfl

/-- Pulling the element at index `i` to the front is a permutation. -/
theorem cons_eraseIdx_perm :
    ∀ (l : List α) (i : Nat) (h : i < l.length),
      (l.get ⟨i, h⟩ :: l.eraseIdx i).Perm l
  | _ :: _, 0, _ => by
    simp [List.eraseIdx]
  | a :: t, i + 1, h => by
    have ht : i < t.length := by
      simpa using Nat.lt_of_succ_lt_succ h
    simp only [List.get, List.eraseIdx]
    exact (List.Perm.swap a _ _).trans ((cons_eraseIdx_perm t i ht).cons a)

/-- Selection without replacement over the whole pool is a permutation. -/
theorem randomSample_perm (rand : Nat → Nat) :
    ∀ (k : Nat) (pool : List α), pool.length = k →
      (randomSample rand k pool).Perm pool
  | 0, pool, h => by
    rw [List.length_eq_zero] at h
    subst h
    simp [randomSample]
  | k + 1, pool, h => by
    have hne : ¬ pool.length = 0 := by omega
    have hpos : 0 < pool.length := Nat.pos_of_ne_zero hne
    have hlt : rand k % pool.length < pool.length := Nat.mod_lt _ hpos
    have hlen : (pool.eraseIdx (rand k % pool.length)).length = k := by
      have h1 := List.length_eraseIdx_add_one hlt
      omega
    show (randomSample rand (k + 1) pool).Perm pool
    unfold randomSample
    rw [dif_neg hne]
    exact ((randomSample_perm rand k _ hlen).cons _).trans
      (cons_eraseIdx_perm pool _ hlt)

/-- C4: the LoadBalancer shuffle returns a permutation of its input — the
same multiset, the same length, no task added, dropped or duplicated — for
every input including the empty list, whatever the RNG chooses. -/
theorem C4_balance_is_permutation :
    ∀ (rand : Nat → Nat) (tasks : List α),
      (balance rand tasks).Perm tasks ∧
      (balance rand tasks).length = tasks.length ∧
      balance rand ([] : List α) = [] := by
  intro rand tasks
  have hperm : (balance rand tasks).Perm tasks :=
    randomSample_perm rand tasks.length tasks rfl
  exact ⟨hperm, hperm.length_eq, rfl⟩

/-- `waitHead` partitions its input. -/
theorem waitHead_partitions : WaitPartitions waitHead := by
  intro m
  show (m.take 1 ++ m.drop 1).Perm m
  rw [List.take_append_drop]

/-- `waitHead` always finishes at least one handle of a non-empty set. -/
theorem waitHead_progresses : WaitProgresses waitHead := by
  intro m hm
  cases m with
  | nil => exact absurd rfl hm
  | cons a t => simp [waitHead]

/-- `waitHead` finishes exactly one handle of a non-empty set. -/
theorem waitHead_one : WaitReturnsOne waitHead := by
  intro m hm
  cases m with
  | nil => exact absurd rfl hm
  | cons a t => simp [waitHead]

/-- C2 counterexample: a pool that satisfies the claim's assumptions — every
wait on a non-empty outstanding set reports at least one finished handle,
and the two returned lists partition the input — can finish both of two
handles in one wait call; the loop then reports remaining-count 0 twice, so
the count sequence `[0, 0]` is not strictly decreasing per notification. -/
theorem C2_counterexample :
    (waitAll [0, 1]).1 ≠ [] ∧
    (waitAll [0, 1]).1 ++ (waitAll [0, 1]).2 = [0, 1] ∧
    runToCompletion waitAll ([0, 1].length + 1) [0, 1] = some [(0, 0), (1, 0)] ∧
    ¬ List.Chain' (fun a b => b < a)
      (([((0 : Nat), (0 : Nat)), (1, 0)]).map Prod.snd) := by
  refine ⟨by decide, by decide, by decide, ?_⟩
  intro h
  simp only [List.map] at h
  have h0 := (List.chain'_cons.1 h).1
  exact absurd h0 (by decide)

/-- C2 (amended): over `N` submitted handles, under the partition and
at-least-one assumptions on the pool's wait call, the completion loop yields
exactly `N` notifications, each handle exactly once; the reported
remaining-count is non-increasing (constant within one wait batch) and ends
at zero; and when every wait call returns exactly one finished handle — as
`ray.wait`'s default `num_returns=1` does — the counts are exactly
`N-1, …, 0`, strictly decreasing down to zero. -/
theorem C2_completion_notifications (wait : List H → List H × List H)
    (Hpart : WaitPartitions wait) (Hprog : WaitProgresses wait) (l : List H) :
    (runToCompletion wait (l.length + 1) l).isSome = true ∧
    ((runToCompletion wait (l.length + 1) l).getD []).length = l.length ∧
    ((((runToCompletion wait (l.length + 1) l).getD []).map Prod.fst).Perm l) ∧
    List.Chain' (fun a b => b ≤ a)
      (((runToCompletion wait (l.length + 1) l).getD []).map Prod.snd) ∧
    (l ≠ [] →
      (((runToCompletion wait (l.length + 1) l).getD []).map Prod.snd).getLast?
        = some 0) ∧
    (WaitReturnsOne wait →
      ((runToCompletion wait (l.length + 1) l).getD []).map Prod.snd
        = (List.range l.length).reverse ∧
      List.Chain' (fun a b => b < a)
        (((runToCompletion wait (l.length + 1) l).getD []).map Prod.snd)) := by
  rcases runToCompletion_spec wait Hpart Hprog (l.length + 1) l (by omega) with
    ⟨notifs, hrun, hperm, _, hchain, hlast⟩
  rw [hrun]
  simp only [Option.isSome_some, Option.getD_some]
  refine ⟨trivial, ?_, hperm, hchain, hlast, ?_⟩
  · have h := hperm.length_eq
    simpa using h
  · intro hone
    have hcounts := runToCompletion_one_counts wait Hpart hone (l.length + 1) l (by omega)
    rw [hrun] at hcounts
    simp only [Option.getD_some] at hcounts
    refine ⟨hcounts, ?_⟩
    rw [hcounts]
    have hp : List.Pairwise (fun a b => b < a) (List.range l.length).reverse := by
      rw [List.pairwise_reverse]
      exact List.pairwise_lt_range l.length
    exact hp.chain'

/-- C2 witness: the loop over the concrete pool `waitHead` and three
handles, driven through the amended theorem. -/
theorem C2_witness :
    (runToCompletion waitHead ([0, 1, 2].length + 1) [0, 1, 2]).isSome = true ∧
    (((runToCompletion waitHead ([0, 1, 2].length + 1) [0, 1, 2]).getD
      []).map Prod.fst).Perm [0, 1, 2] ∧
    ((runToCompletion waitHead ([0, 1, 2].length + 1) [0, 1, 2]).getD
      []).map Prod.snd = [2, 1, 0] := by
  have h := C2_completion_notifications waitHead waitHead_partitions
    waitHead_progresses [0, 1, 2]
  refine ⟨h.1, h.2.2.1, ?_⟩
  have h6 := (h.2.2.2.2.2 waitHead_one).1
  rw [h6]
  decide

/-- C5: under the external-collaborator precondition (partitioning wait that
reports at least one finished handle on a non-empty set), the outstanding
set strictly shrinks on every iteration, and the completion loop terminates
for every finite handle set: fuel `N + 1` suffices. -/
theorem C5_loop_terminates (wait : List H → List H × List H)
    (Hpart : WaitPartitions wait) (Hprog : WaitProgresses wait) (l : List H) :
    (l ≠ [] → (wait l).2.length < l.length) ∧
    (runToCompletion wait (l.length + 1) l).isSome = true := by
  constructor
  · intro hne
    have hlen : (wait l).1.length + (wait l).2.length = l.length := by
      have h := (Hpart l).length_eq
      simpa [List.length_append] using h
    have hpos : 0 < (wait l).1.length := List.length_pos.2 (Hprog l hne)
    omega
  · rcases runToCompletion_spec wait Hpart Hprog (l.length + 1) l (by omega) with
      ⟨notifs, hrun, _⟩
    rw [hrun]
    rfl

/-- C5 witness: termination and strict shrinkage at the concrete pool
`waitHead` on three handles. -/
theorem C5_witness :
    (waitHead [0, 1, 2]).2.length < [0, 1, 2].length ∧
    (runToCompletion waitHead ([0, 1, 2].length + 1) [0, 1, 2]).isSome = true := by
  have h := C5_loop_terminates waitHead waitHead_partitions waitHead_progresses [0, 1, 2]
  exact ⟨h.1 (by decide), h.2⟩

/-- The submission loop pairs every task, in order, with a handle. -/
theorem submitAll_fst (submit : τ → σ → H × σ) :
    ∀ (tasks : List τ) (s : σ), (submitAll submit tasks s).1.map Prod.fst = tasks
  | [], _ => rfl
  | t :: ts, s => by
    simp only [submitAll, List.map]
    rw [submitAll_fst submit ts]

/-- The instrumented submission loop calls submit once per task, in list
order: the final call log is the task list itself. -/
theorem submitAll_log (submit : τ → σ → H × σ) :
    ∀ (tasks : List τ) (s : σ) (log : List τ),
      (submitAll (loggingSubmit submit) tasks (s, log)).2.2 = log ++ tasks
  | [], _, log => by simp [submitAll]
  | t :: ts, s, log => by
    simp only [submitAll, loggingSubmit]
    rw [submitAll_log submit ts]
    simp

/-- C6: submission calls the pool's submit function exactly once per task —
the instrumented call log equals the task list, so no task is skipped,
batched or submitted twice — in the given (balanced) order, and returns the
pairing of each task with the handle its own submit call returned. -/
theorem C6_submit_once_in_order :
    ∀ (submit : τ → σ → H × σ) (tasks : List τ) (s : σ),
      (submitAll submit tasks s).1.map Prod.fst = tasks ∧
      (submitAll submit tasks s).1.length = tasks.length ∧
      (submitAll (loggingSubmit submit) tasks (s, [])).2.2 = tasks := by
  intro submit tasks s
  refine ⟨submitAll_fst submit tasks s, ?_, ?_⟩
  · have h := congrArg List.length (submitAll_fst submit tasks s)
    simpa using h
  · have h := submitAll_log submit tasks s []
    simpa using h

/-- C10: `ControlArgs` and `CPRArgs` are frozen dataclasses — every
attribute assignment on a constructed instance, whichever field and value,
raises `FrozenInstanceError`. -/
theorem C10_frozen_dataclasses :
    (∀ (a : ControlArgs) (f : ControlArgsAssign),
      a.setattr f = Except.error "FrozenInstanceError") ∧
    (∀ (a : CPRArgs) (f : CPRArgsAssign),
      a.setattr f = Except.error "FrozenInstanceError") := by
  constructor
  · intro a f
    rfl
  · intro a f
    rfl

/-- `mapOrNone` succeeds pointwise. -/
theorem mapOrNone_eq_some (f : α → Option β) (g : α → β) :
    ∀ (l : List α), (∀ x ∈ l, f x = some (g x)) → mapOrNone f l = some (l.map g)
  | [], _ => rfl
  | x :: xs, h => by
    have hx := h x (List.mem_cons_self x xs)
    have hxs := mapOrNone_eq_some f g xs (fun y hy => h y (List.mem_cons_of_mem x hy))
    simp [mapOrNone, hx, hxs]

/-- Length of a `flatMap` whose pieces all share one length. -/
theorem length_flatMap_const (f : α → List β) (c : Nat) :
    ∀ (l : List α), (∀ x ∈ l, (f x).length = c) →
      (l.flatMap f).length = l.length * c
  | [], _ => by simp
  | x :: t, h => by
    have hx := h x (List.mem_cons_self x t)
    have ht := length_flatMap_const f c t (fun y hy => h y (List.mem_cons_of_mem x hy))
    simp only [List.flatMap_cons, List.length_append, List.length_cons, hx, ht]
    ring

/-- Zipping a list with its own image pairs each element with its image. -/
theorem zip_map_self (f : α → β) :
    ∀ (l : List α) (q : α × β), q ∈ l.zip (l.map f) → q.2 = f q.1
  | [], q, h => absurd h (List.not_mem_nil q)
  | a :: t, q, h => by
    simp only [List.map, List.zip_cons_cons] at h
    rcases List.mem_cons.1 h with rfl | h2
    · rfl
    · exact zip_map_self f t q h2

/-- Every key of the spec list (or of the accumulator) ends up with an entry
in the built index. -/
theorem buildEntries_covers (solve : MDP → Rat → NDArray)
    (persisted : BKey → Option NDArray) :
    ∀ (specs : List DPSpec) (acc : List (BKey × NDArray)) (k : BKey),
      ((∃ e ∈ acc, e.1 = k) ∨ (∃ s ∈ specs, s.key = k)) →
      ∃ e ∈ buildEntries solve persisted specs acc, e.1 = k
  | [], acc, k, h => by
    rcases h with h | h
    · simpa [buildEntries] using h
    · rcases h with ⟨s, hs, _⟩
      exact absurd hs (List.not_mem_nil s)
  | s :: rest, acc, k, h => by
    simp only [buildEntries]
    by_cases hmem : acc.any (fun e => e.1 = s.key) = true
    · rw [if_pos hmem]
      apply buildEntries_covers solve persisted rest acc k
      rcases h with h | ⟨t, ht, hk⟩
      · exact Or.inl h
      · rcases List.mem_cons.1 ht with rfl | ht2
        · left
          rcases List.any_eq_true.1 hmem with ⟨e, he, hek⟩
          exact ⟨e, he, by rw [of_decide_eq_true hek, hk]⟩
        · exact Or.inr ⟨t, ht2, hk⟩
    · rw [if_neg hmem]
      apply buildEntries_covers solve persisted rest
        (acc ++ [(s.key, baselineValue solve persisted s)]) k
      rcases h with h | ⟨t, ht, hk⟩
      · rcases h with ⟨e, he, hek⟩
        exact Or.inl ⟨e, List.mem_append_left _ he, hek⟩
      · rcases List.mem_cons.1 ht with rfl | ht2
        · exact Or.inl ⟨(t.key, baselineValue solve persisted t),
            List.mem_append_right _ (by simp), hk⟩
        · exact Or.inr ⟨t, ht2, hk⟩

/-- `get` succeeds on every key the index was built from. -/
theorem build_index_get_isSome (solve : MDP → Rat → NDArray)
    (persisted : BKey → Option NDArray) (specs : List DPSpec) (k : BKey)
    (hk : ∃ s ∈ specs, s.key = k) :
    ((build_index solve persisted specs).get k.1 k.2.1 k.2.2).isSome = true := by
  rcases buildEntries_covers solve persisted specs [] k
    (Or.inr hk) with ⟨e, he, hek⟩
  have hfind : ((buildEntries solve persisted specs []).find?
      (fun e => e.1 = ((k.1, k.2.1, k.2.2) : BKey))).isSome = true := by
    rw [List.find?_isSome]
    exact ⟨e, he, by simp [hek]⟩
  simp only [build_index, DynaProgStateValueIndex.get]
  rcases Option.isSome_iff_exists.1 hfind with ⟨v, hv⟩
  rw [hv]
  rfl

/-- `add_experiment_context` never hits a missing key: it returns exactly
the zip of the experiments with their spec entries, each experiment paired
with the context entry for its spec's key in the index built over the full
spec list. -/
theorem add_experiment_context_eq (resolver : EnvConfig → EnvSpec)
    (solve : MDP → Rat → NDArray) (persisted : BKey → Option NDArray)
    (experiments : List Experiment) :
    add_experiment_context resolver solve persisted experiments
      = some ((experiments.zip (dynaProgSpecs resolver experiments)).map
          (fun p => (p.1, contextEntry
            (build_index solve persisted (dynaProgSpecs resolver experiments))
            p.2.key))) := by
  simp only [add_experiment_context]
  apply mapOrNone_eq_some
  intro p hp
  obtain ⟨ex, s⟩ := p
  have hmemspec : s ∈ dynaProgSpecs resolver experiments := (List.of_mem_zip hp).2
  have hsome := build_index_get_isSome solve persisted
    (dynaProgSpecs resolver experiments) s.key ⟨s, hmemspec, rfl⟩
  rcases Option.isSome_iff_exists.1 hsome with ⟨arr, harr⟩
  have harr2 : (build_index solve persisted (dynaProgSpecs resolver experiments)).get
      s.1 s.2.1 s.2.2.1 = some arr := harr
  simp only [harr2, Option.map_some]
  have hvec : indexVector
      (build_index solve persisted (dynaProgSpecs resolver experiments)) s.key
      = arr.tolist := by
    simp only [indexVector]
    rw [harr]
    rfl
  simp [contextEntry, hvec]

/-- The generated-task count for one experiments-and-context list. -/
theorem generate_tasks_length (run_config : RunConfig)
    (ec : List (Experiment × List (String × ContextValue)))
    (num_runs : Nat) (pfx : String) :
    (generate_tasks run_config ec num_runs pfx).length = ec.length * num_runs := by
  unfold generate_tasks
  rw [length_flatMap_const _ num_runs]
  · simp [List.enum_length]
  · intro x hx
    simp

/-- The cross-product size. -/
theorem create_experiments_length (envs_configs : List EnvConfig)
    (experiment_configs : List ExperimentConfig) :
    (create_experiments envs_configs experiment_configs).length
      = envs_configs.length * experiment_configs.length := by
  unfold create_experiments
  rw [length_flatMap_const _ experiment_configs.length]
  intro x hx
  simp

/-- C3: for every batch, the generated `ExperimentTask` records number
exactly `|environments| × |experiment_configs| × num_runs`: the generator
crosses every environment with every experiment config (no de-duplication)
and emits exactly `num_runs` tasks per resulting Experiment. -/
theorem C3_task_count (resolver : EnvConfig → EnvSpec)
    (solve : MDP → Rat → NDArray) (persisted : BKey → Option NDArray)
    (envs_configs : List EnvConfig) (experiment_configs : List ExperimentConfig)
    (run_config : RunConfig) (num_runs : Nat) (pfx : String) :
    (create_tasks_model resolver solve persisted envs_configs experiment_configs
      run_config num_runs pfx).isSome = true ∧
    ((create_tasks_model resolver solve persisted envs_configs experiment_configs
      run_config num_runs pfx).getD []).length
      = envs_configs.length * experiment_configs.length * num_runs := by
  have hctx := add_experiment_context_eq resolver solve persisted
    (create_experiments envs_configs experiment_configs)
  constructor
  · simp [create_tasks_model, hctx]
  · simp only [create_tasks_model, hctx, Option.map_some', Option.getD_some]
    rw [generate_tasks_length]
    rw [List.length_map, List.length_zip, dynaProgSpecs, List.length_map,
      Nat.min_self, create_experiments_length]

/-- C7: every generated task's context binds "dyna_prog_state_values" to the
plain-list (not array-handle) form of the baseline vector the index holds
for the experiment's `(env_name, level, discount_factor)` key — which the
index resolves successfully — so any two experiments resolving to the same
key carry identical baseline vectors, in the same order. -/
theorem C7_baseline_context (resolver : EnvConfig → EnvSpec)
    (solve : MDP → Rat → NDArray) (persisted : BKey → Option NDArray)
    (experiments : List Experiment) :
    (add_experiment_context resolver solve persisted experiments).isSome = true ∧
    (∀ p ∈ (add_experiment_context resolver solve persisted experiments).getD [],
      ((build_index solve persisted (dynaProgSpecs resolver experiments)).get
          (experimentKey resolver p.1).1 (experimentKey resolver p.1).2.1
          (experimentKey resolver p.1).2.2).isSome = true ∧
      p.2 = [("dyna_prog_state_values", ContextValue.pylist
        (indexVector (build_index solve persisted (dynaProgSpecs resolver experiments))
          (experimentKey resolver p.1)))]) ∧
    (∀ p ∈ (add_experiment_context resolver solve persisted experiments).getD [],
      ∀ q ∈ (add_experiment_context resolver solve persisted experiments).getD [],
        experimentKey resolver p.1 = experimentKey resolver q.1 → p.2 = q.2) := by
  have hctx := add_experiment_context_eq resolver solve persisted experiments
  have hmain : ∀ p ∈ (add_experiment_context resolver solve persisted
      experiments).getD [],
      p.2 = contextEntry
        (build_index solve persisted (dynaProgSpecs resolver experiments))
        (experimentKey resolver p.1) := by
    intro p hp
    rw [hctx] at hp
    simp only [Option.getD_some] at hp
    rcases List.exists_of_mem_map hp with ⟨q, hq, hgq⟩
    have hq2 : q.2 = dpSpecOf resolver q.1 :=
      zip_map_self (dpSpecOf resolver) experiments q hq
    rw [← hgq]
    simp only
    rw [hq2]
    rfl
  refine ⟨by simp [hctx], ?_, ?_⟩
  · intro p hp
    refine ⟨?_, hmain p hp⟩
    rw [hctx] at hp
    simp only [Option.getD_some] at hp
    rcases List.exists_of_mem_map hp with ⟨q, hq, hgq⟩
    have hq1 : q.1 ∈ experiments := (List.of_mem_zip hq).1
    have hp1 : p.1 = q.1 := by
      rw [← hgq]
    apply build_index_get_isSome
    refine ⟨dpSpecOf resolver q.1, ?_, ?_⟩
    · simp only [dynaProgSpecs]
      exact List.mem_map_of_mem (dpSpecOf resolver) hq1
    · rw [hp1]
      rfl
  · intro p hp q hq hkey
    rw [hmain p hp, hmain q hq, hkey]

/-- C7 witness: the baseline-context theorem applied to the concrete batch
`experiments0` at the concrete member `pA`. -/
theorem C7_witness :
    ((build_index solve0 persisted0 (dynaProgSpecs resolver0 experiments0)).get
        (experimentKey resolver0 pA.1).1 (experimentKey resolver0 pA.1).2.1
        (experimentKey resolver0 pA.1).2.2).isSome = true ∧
    pA.2 = [("dyna_prog_state_values", ContextValue.pylist
      (indexVector
        (build_index solve0 persisted0 (dynaProgSpecs resolver0 experiments0))
        (experimentKey resolver0 pA.1)))] := by
  have hmem : pA ∈ (add_experiment_context resolver0 solve0 persisted0
      experiments0).getD [] := by
    decide
  exact (C7_baseline_context resolver0 solve0 persisted0 experiments0).2.1 pA hmem

end DAAF
